import Mathlib

/-!
Verification development for the hand-drawn stroke synthesis pipeline of the
katex handwriting geometry scripts.  The definitions below are a shallow
embedding, over exact rationals, of the functions in
src/katex-handwriting-geometry.js (the v4.0 section is taken as the primary
variant; the v3.1 section and the other files repeat the same logic with
different constants).  The ambient Math.random stream is modelled as an
explicit stream of rationals together with an index that is threaded through
every call, two draws per interpolation step, in the exact order the source
consumes them.  The transcendental Math primitives (sin, hypot, PI) are
modelled as fields of an abstract structure, with the properties the source
relies on stated as explicit predicates.
-/

namespace HwGeo

/-- Abstract interface for the JavaScript Math primitives used by the source. -/
structure JsMath where
  sin : ℚ → ℚ
  pi : ℚ
  hypot : ℚ → ℚ → ℚ

/-- The properties of Math.hypot that the source relies on: the result is
nonnegative, dominates the absolute value of each argument, and is at most
the sum of the absolute values. -/
def JsMath.HypotValid (M : JsMath) : Prop :=
  (∀ x y, 0 ≤ M.hypot x y) ∧
  (∀ x y, |x| ≤ M.hypot x y) ∧
  (∀ x y, |y| ≤ M.hypot x y) ∧
  (∀ x y, M.hypot x y ≤ |x| + |y|)

/-- On the unit interval scaled by pi, Math.sin is in the unit interval. -/
def JsMath.SinUnitRange (M : JsMath) : Prop :=
  ∀ t : ℚ, 0 ≤ t → t ≤ 1 → 0 ≤ M.sin (t * M.pi) ∧ M.sin (t * M.pi) ≤ 1

/-- Math.sin never exceeds 1 in absolute value. -/
def JsMath.SinBounded (M : JsMath) : Prop :=
  ∀ x : ℚ, |M.sin x| ≤ 1

/-- A valid Math.random stream: every draw lies in the interval from 0
inclusive to 1 exclusive. -/
def RngValid (rng : ℕ → ℚ) : Prop :=
  ∀ n, 0 ≤ rng n ∧ rng n < 1

/-- A sample point: position plus the synthetic pressure tag. -/
structure Pt where
  x : ℚ
  y : ℚ
  pressure : ℚ
deriving DecidableEq

/-- MASTER_SETTINGS.line (v4.0, lines 80-86). -/
structure LineConfig where
  waveAmount : ℚ
  wobbleAmount : ℚ
  waveFrequency : ℚ
  minSteps : ℕ
  stepDivisor : ℚ
deriving DecidableEq

/-- The shipped defaults of MASTER_SETTINGS.line. -/
def defaultLine : LineConfig :=
  { waveAmount := 3/200, wobbleAmount := 1/50, waveFrequency := 3,
    minSteps := 15, stepDivisor := 5/2 }

/-- MASTER_SETTINGS.global (v4.0, lines 56-63). -/
structure GlobalSettings where
  strokeSize : ℚ
  thinning : ℚ
  smoothing : ℚ
  streamline : ℚ
  roughness : ℚ
  bowing : ℚ
deriving DecidableEq

/-- The shipped defaults of MASTER_SETTINGS.global. -/
def defaultGlobal : GlobalSettings :=
  { strokeSize := 3, thinning := 1/4, smoothing := 2/5, streamline := 2/5,
    roughness := 2, bowing := 7/5 }

/-- MASTER_SETTINGS.variance (v4.0, lines 69-74). -/
structure VarSettings where
  size : ℚ
  thinning : ℚ
  roughness : ℚ
  bowing : ℚ
deriving DecidableEq

/-- The shipped defaults of MASTER_SETTINGS.variance. -/
def defaultVariance : VarSettings :=
  { size := 1, thinning := 1/5, roughness := 3/5, bowing := 1/2 }

/-- A category settings object of MASTER_SETTINGS: each field may be absent
(JS undefined).  A present field with value 0 is still falsy in JS. -/
structure Category where
  strokeSize : Option ℚ
  thinning : Option ℚ
  smoothing : Option ℚ
  streamline : Option ℚ
  roughness : Option ℚ
  bowing : Option ℚ
deriving DecidableEq

/-- The empty category object used when getSettings receives no category. -/
def Category.empty : Category := ⟨none, none, none, none, none, none⟩

/-- The settings object returned by getSettings (v4.0, lines 258-268). -/
structure Settings where
  size : ℚ
  thinning : ℚ
  smoothing : ℚ
  streamline : ℚ
  simulatePressure : Bool
  roughness : ℚ
  bowing : ℚ
  disableMultiStroke : Bool
  seed : ℤ
deriving DecidableEq

/-- The rand helper of getSettings: base + (Math.random() - 0.5) * 2 * variance. -/
def randJitter (base variance r : ℚ) : ℚ := base + (r - 1/2) * 2 * variance

/-- The clamp helper of getSettings: Math.max(min, Math.min(max, val)). -/
def clampQ (v lo hi : ℚ) : ℚ := max lo (min hi v)

/-- JS expression cat.f || e where e draws one random value: a present nonzero
override short-circuits the draw; an absent or zero field evaluates e and
consumes one draw.  Returns the value and the next stream index. -/
def jsOrDraw (o : Option ℚ) (k : ℕ) (f : ℕ → ℚ) : ℚ × ℕ :=
  match o with
  | some v => if v = 0 then (f k, k + 1) else (v, k)
  | none => (f k, k + 1)

/-- JS expression o || d for plain values: 0 and undefined fall through to d. -/
def jsOrVal (o : Option ℚ) (d : ℚ) : ℚ :=
  match o with
  | some v => if v = 0 then d else v
  | none => d

/-- Embedding of getSettings (v4.0, lines 249-269).  Object literal fields are
evaluated top to bottom; each randomized field consumes one draw unless a
truthy category override short-circuits it, and the seed always consumes one
draw.  Returns the settings object and the next stream index. -/
def getSettings (rng : ℕ → ℚ) (k : ℕ) (category : Option Category)
    (g : GlobalSettings) (v : VarSettings) : Settings × ℕ :=
  let cat := category.getD Category.empty
  let sz := jsOrDraw cat.strokeSize k
    (fun j => clampQ (randJitter g.strokeSize v.size (rng j)) 1 6)
  let th := jsOrDraw cat.thinning sz.2
    (fun j => clampQ (randJitter g.thinning v.thinning (rng j)) (-(1/10)) (3/5))
  let smoothing := jsOrVal cat.smoothing g.smoothing
  let streamline := jsOrVal cat.streamline g.streamline
  let ro := jsOrDraw cat.roughness th.2
    (fun j => clampQ (randJitter g.roughness v.roughness (rng j)) (1/2) 4)
  let bo := jsOrDraw cat.bowing ro.2
    (fun j => clampQ (randJitter g.bowing v.bowing (rng j)) (3/10) 3)
  let seed : ℤ := ⌊rng bo.2 * 10000⌋
  (⟨sz.1, th.1, smoothing, streamline, true, ro.1, bo.1, true, seed⟩, bo.2 + 1)

/-- The ad hoc settings objects the processors pass to drawRoughShape and
drawPoints: each field may be absent. -/
structure OverrideSettings where
  size : Option ℚ
  thinning : Option ℚ
  smoothing : Option ℚ
  streamline : Option ℚ
deriving DecidableEq

/-- A settings object with no fields set. -/
def noOverrides : OverrideSettings := ⟨none, none, none, none⟩

/-- The option object drawRoughShape (v4.0, lines 349-356) hands to getStroke:
every field falls back to MASTER_SETTINGS.global through JS ||, so a field
that is 0 or absent is replaced by the global default. -/
structure StrokeOptions where
  size : ℚ
  thinning : ℚ
  smoothing : ℚ
  streamline : ℚ
  simulatePressure : Bool
  last : Bool
deriving DecidableEq

/-- Builds the getStroke option object from the caller settings and the
global defaults, mirroring the || merge of drawRoughShape and drawPoints. -/
def mkStrokeOptions (s : OverrideSettings) (g : GlobalSettings) : StrokeOptions :=
  ⟨jsOrVal s.size g.strokeSize, jsOrVal s.thinning g.thinning,
   jsOrVal s.smoothing g.smoothing, jsOrVal s.streamline g.streamline,
   true, true⟩

/-- The step count of interpolateLine: Math.max(minSteps, Math.ceil(distance /
stepDivisor)).  A negative ceiling (impossible for a genuine hypot) collapses
to the minimum, matching Math.max. -/
def lineSteps (L : LineConfig) (distance : ℚ) : ℕ :=
  max L.minSteps (Int.toNat ⌈distance / L.stepDivisor⌉)

/-- Embedding of interpolateLine (v4.0, lines 280-306).  The loop runs from 0
to steps inclusive; iteration i consumes the ambient draws k + 2i (the random
wobble) and k + 2i + 1 (the pressure term), exactly in source order.  The JS
guard hypot || 1 becomes the zero test on the rational distance. -/
def interpolateLine (M : JsMath) (rng : ℕ → ℚ) (k : ℕ) (L : LineConfig)
    (p0 p1 : ℚ × ℚ) : List Pt :=
  let distance := M.hypot (p1.1 - p0.1) (p1.2 - p0.2)
  let steps := lineSteps L distance
  let dx := p1.1 - p0.1
  let dy := p1.2 - p0.2
  let len := if M.hypot dx dy = 0 then 1 else M.hypot dx dy
  let perpX := -dy / len
  let perpY := dx / len
  (List.range (steps + 1)).map (fun (i : ℕ) =>
    let t : ℚ := (i : ℚ) / (steps : ℚ)
    let waveAmount := M.sin (t * M.pi * L.waveFrequency) * distance * L.waveAmount
    let randomWobble := (rng (k + 2 * i) - 1/2) * distance * L.wobbleAmount
    let x := p0.1 + dx * t + perpX * (waveAmount + randomWobble)
    let y := p0.2 + dy * t + perpY * (waveAmount + randomWobble)
    let pr := 1/4 + M.sin (t * M.pi) * (9/20) + rng (k + 2 * i + 1) * (3/20)
    ⟨x, y, pr⟩)

/-- The number of ambient draws interpolateLine consumes. -/
def lineDraws (M : JsMath) (L : LineConfig) (p0 p1 : ℚ × ℚ) : ℕ :=
  2 * (lineSteps L (M.hypot (p1.1 - p0.1) (p1.2 - p0.2)) + 1)

/-- Embedding of interpolateBezier (v4.0, lines 308-321): a fixed 18 step
cubic Bezier evaluation, 19 points, no ambient randomness. -/
def interpolateBezier (M : JsMath) (p0 p1 p2 p3 : ℚ × ℚ) : List Pt :=
  (List.range 19).map (fun (i : ℕ) =>
    let t : ℚ := (i : ℚ) / 18
    let mt := 1 - t
    let x := mt*mt*mt*p0.1 + 3*mt*mt*t*p1.1 + 3*mt*t*t*p2.1 + t*t*t*p3.1
    let y := mt*mt*mt*p0.2 + 3*mt*mt*t*p1.2 + 3*mt*t*t*p2.2 + t*t*t*p3.2
    let pr := 7/20 + M.sin (t * M.pi) * (2/5)
    ⟨x, y, pr⟩)

/-- A rough.js drawing op, as consumed by drawRoughShape. -/
inductive Op where
  | move (p : ℚ × ℚ)
  | lineTo (p : ℚ × ℚ)
  | bcurveTo (c1 c2 p : ℚ × ℚ)
deriving DecidableEq

/-- The op walk of drawRoughShape (v4.0, lines 326-345): a move pushes the
current position with pressure 0.5, a lineTo appends interpolateLine from the
current position, a bcurveTo appends interpolateBezier.  The ambient stream
index is threaded through the lineTo draws. -/
def opsToPoints (M : JsMath) (rng : ℕ → ℚ) (L : LineConfig) :
    List Op → (ℚ × ℚ) → ℕ → List Pt × ℕ
  | [], _, k => ([], k)
  | Op.move p :: rest, _, k =>
      let tl := opsToPoints M rng L rest p k
      (⟨p.1, p.2, 1/2⟩ :: tl.1, tl.2)
  | Op.lineTo p :: rest, cur, k =>
      let seg := interpolateLine M rng k L cur p
      let tl := opsToPoints M rng L rest p (k + lineDraws M L cur p)
      (seg ++ tl.1, tl.2)
  | Op.bcurveTo c1 c2 p :: rest, cur, k =>
      let seg := interpolateBezier M cur c1 c2 p
      let tl := opsToPoints M rng L rest p k
      (seg ++ tl.1, tl.2)

/-- Modelled from the spec: the local half width of the Stroke Outliner, a
function of size, thinning and pressure (the width formula of the design
notes, width = size * (1 + thinning * (pressure - 0.5) * 2), halved and
clamped to a small positive minimum). -/
def halfWidth (o : StrokeOptions) (p : ℚ) : ℚ :=
  max (1/100) (o.size / 2 * (1 + o.thinning * (p - 1/2) * 2))

/-- The unit normal of a tangent vector, with the same zero guard as the
source uses for perpendicular directions. -/
def unitNormal (M : JsMath) (dx dy : ℚ) : ℚ × ℚ :=
  let len := if M.hypot dx dy = 0 then 1 else M.hypot dx dy
  (-dy / len, dx / len)

/-- Modelled from the spec: getStroke of perfect-freehand (the Stroke
Outliner).  The library is loaded from a remote host and is not under src/;
this definition follows the spec description of the variable width stroke
construction: walk the samples, compute a local half width from size,
thinning and pressure, emit one offset point on each side of the path along
the local normal, and concatenate the left rail with the reversed right rail
into one closed ring.  A single sample yields a minimal dot shape.  The
smoothing and streamline averaging is left as the identity, which the spec
design notes leave under-specified. -/
def getStroke (M : JsMath) (o : StrokeOptions) (pts : List Pt) : List (ℚ × ℚ) :=
  match pts with
  | [] => []
  | [p] =>
      [(p.x - o.size / 2, p.y), (p.x, p.y - o.size / 2),
       (p.x + o.size / 2, p.y), (p.x, p.y + o.size / 2)]
  | _ =>
      let n := pts.length
      let d : Pt := ⟨0, 0, 1/2⟩
      let rail := (List.range n).map (fun (i : ℕ) =>
        let p := pts.getD i d
        let a := pts.getD (min (i + 1) (n - 1)) d
        let b := pts.getD (i - 1) d
        let nrm := unitNormal M (a.x - b.x) (a.y - b.y)
        let w := halfWidth o p.pressure
        ((p.x + w * nrm.1, p.y + w * nrm.2), (p.x - w * nrm.1, p.y - w * nrm.2)))
      rail.map Prod.fst ++ (rail.map Prod.snd).reverse

/-- Embedding of drawPoints (v4.0, lines 370-391): fewer than two points
produce no path at all; otherwise the outliner output is emitted whenever it
is nonempty.  The result is the list of emitted polygons. -/
def drawPoints (M : JsMath) (points : List Pt) (s : OverrideSettings)
    (g : GlobalSettings) : List (List (ℚ × ℚ)) :=
  if points.length < 2 then []
  else
    let stroke := getStroke M (mkStrokeOptions s g) points
    if 0 < stroke.length then [stroke] else []

/-- Embedding of drawRoughShape (v4.0, lines 323-368): every op set of the
drawable is walked into a point sequence; sequences of more than one point
are outlined and emitted when the outline is nonempty. -/
def drawRoughShape (M : JsMath) (rng : ℕ → ℚ) (L : LineConfig)
    (s : OverrideSettings) (g : GlobalSettings) :
    List (List Op) → ℕ → List (List (ℚ × ℚ))
  | [], _ => []
  | ops :: rest, k =>
      let walk := opsToPoints M rng L ops (0, 0) k
      let here :=
        if 1 < walk.1.length then
          let stroke := getStroke M (mkStrokeOptions s g) walk.1
          if 0 < stroke.length then [stroke] else []
        else []
      here ++ drawRoughShape M rng L s g rest walk.2

/-- Modelled from the spec: the seeded random stream of the Rough Geometry
Generator (rough.js), which is loaded from a remote host and is not under
src/.  Any concrete pure function of the seed works for the model; the point
is that a fixed seed determines the draws.  Values lie in [0, 1). -/
def roughRand (seed : ℤ) (i : ℕ) : ℚ :=
  (((seed.natAbs + 1) * (i + 1) * 48271) % 65536 : ℕ) / 65536

/-- Modelled from the spec: generator.line of rough.js (the Rough Geometry
Generator), not under src/.  For a Line it emits one slightly offset straight
segment as a move op followed by a lineTo op (the callers here disable the
multi stroke second pass), with endpoint offsets drawn from the seeded
stream and scaled by roughness, reproducible for a fixed seed. -/
def generatorLine (seed : ℤ) (roughness : ℚ) (p0 p1 : ℚ × ℚ) : List Op :=
  let off := fun (i : ℕ) => (roughRand seed i - 1/2) * 2 * roughness
  [Op.move (p0.1 + off 0, p0.2 + off 1), Op.lineTo (p1.1 + off 2, p1.2 + off 3)]

/-- The stroke synthesis pipeline for a Line primitive, as wired in the
processors: the sketch stage expands the line into a drawable, and
drawRoughShape samples and outlines it. -/
def pipelineLine (M : JsMath) (rng : ℕ → ℚ) (k : ℕ) (L : LineConfig)
    (seed : ℤ) (roughness : ℚ) (s : OverrideSettings) (g : GlobalSettings)
    (p0 p1 : ℚ × ℚ) : List (List (ℚ × ℚ)) :=
  drawRoughShape M rng L s g [generatorLine seed roughness p0 p1] k

/-- A concrete executable instance of the Math primitives, used to evaluate
the model on closed inputs: sine is the zero function and hypot is the
taxicab norm, which agrees with the Euclidean norm on axis aligned vectors
and satisfies every property stated above. -/
def M0 : JsMath := ⟨fun _ => 0, 0, fun x y => |x| + |y|⟩

/-- The constant ambient stream at one half (every JS wobble term vanishes). -/
def rngHalf : ℕ → ℚ := fun _ => 1/2

/-- The constant ambient stream at zero. -/
def rngZero : ℕ → ℚ := fun _ => 0

/-- A category whose strokeSize override is far outside the documented range. -/
def bigCat : Category := ⟨some 100, none, none, none, none, none⟩

/-- A category object overriding every field with 0. -/
def zeroCat : Category := ⟨some 0, some 0, some 0, some 0, some 0, some 0⟩

/-- A caller settings object setting every field to 0. -/
def zeroOverrides : OverrideSettings := ⟨some 0, some 0, some 0, some 0⟩

/-- An upper bound for the half width of the modelled outliner over pressures
in the unit interval. -/
def wBound (o : StrokeOptions) : ℚ :=
  max (1/100) (|o.size| / 2 * (1 + |o.thinning|))

/-- The sine wave term of interpolateLine at parameter t. -/
def lineWave (M : JsMath) (L : LineConfig) (t distance : ℚ) : ℚ :=
  M.sin (t * M.pi * L.waveFrequency) * distance * L.waveAmount

/-- The uniform wobble term of interpolateLine for the draw r. -/
def lineWobble (L : LineConfig) (r distance : ℚ) : ℚ :=
  (r - 1/2) * distance * L.wobbleAmount

/-- The guarded segment length of the source, Math.hypot(dx, dy) || 1. -/
def guardedLen (M : JsMath) (dx dy : ℚ) : ℚ :=
  if M.hypot dx dy = 0 then 1 else M.hypot dx dy

theorem M0_hypotValid : M0.HypotValid := by
  refine ⟨fun x y => ?_, fun x y => ?_, fun x y => ?_, fun x y => le_refl _⟩
  · exact add_nonneg (abs_nonneg x) (abs_nonneg y)
  · exact le_add_of_nonneg_right (abs_nonneg y)
  · exact le_add_of_nonneg_left (abs_nonneg x)

theorem M0_sinUnitRange : M0.SinUnitRange :=
  fun _ _ _ => ⟨le_refl 0, zero_le_one⟩

theorem M0_sinBounded : M0.SinBounded :=
  fun _ => by simp [M0]

theorem rngHalf_valid : RngValid rngHalf :=
  fun _ => by norm_num [rngHalf]

theorem rngZero_valid : RngValid rngZero :=
  fun _ => by norm_num [rngZero]

theorem clampQ_mem (v lo hi : ℚ) (h : lo ≤ hi) :
    lo ≤ clampQ v lo hi ∧ clampQ v lo hi ≤ hi := by
  unfold clampQ
  constructor
  · exact le_max_left _ _
  · exact max_le h (min_le_left _ _)

theorem interpolateLine_length (M : JsMath) (rng : ℕ → ℚ) (k : ℕ)
    (L : LineConfig) (p0 p1 : ℚ × ℚ) :
    (interpolateLine M rng k L p0 p1).length =
      lineSteps L (M.hypot (p1.1 - p0.1) (p1.2 - p0.2)) + 1 := by
  simp [interpolateLine]

theorem div_nat_unit (i steps : ℕ) (hi : i ≤ steps) :
    0 ≤ ((i : ℚ) / (steps : ℚ)) ∧ ((i : ℚ) / (steps : ℚ)) ≤ 1 := by
  rcases Nat.eq_zero_or_pos steps with h | h
  · subst h
    simp at hi
    subst hi
    norm_num
  · have hs : (0 : ℚ) < (steps : ℚ) := by exact_mod_cast h
    refine ⟨by positivity, ?_⟩
    rw [div_le_one hs]
    exact_mod_cast hi

/-- C2 (amended): fields that are not overridden by a truthy category value
are sampled as base plus a uniform jitter scaled by the variance and clamped
into their fixed range, so they always land inside that range; this is the
no-category call. -/
theorem c2_amended (g : GlobalSettings) (v : VarSettings) (rng : ℕ → ℚ) (k : ℕ) :
    ((getSettings rng k none g v).1).size
        = clampQ (randJitter g.strokeSize v.size (rng k)) 1 6 ∧
    1 ≤ ((getSettings rng k none g v).1).size ∧
    ((getSettings rng k none g v).1).size ≤ 6 ∧
    ((getSettings rng k none g v).1).thinning
        = clampQ (randJitter g.thinning v.thinning (rng (k + 1))) (-(1/10)) (3/5) ∧
    -(1/10) ≤ ((getSettings rng k none g v).1).thinning ∧
    ((getSettings rng k none g v).1).thinning ≤ 3/5 ∧
    ((getSettings rng k none g v).1).roughness
        = clampQ (randJitter g.roughness v.roughness (rng (k + 2))) (1/2) 4 ∧
    1/2 ≤ ((getSettings rng k none g v).1).roughness ∧
    ((getSettings rng k none g v).1).roughness ≤ 4 ∧
    ((getSettings rng k none g v).1).bowing
        = clampQ (randJitter g.bowing v.bowing (rng (k + 3))) (3/10) 3 ∧
    3/10 ≤ ((getSettings rng k none g v).1).bowing ∧
    ((getSettings rng k none g v).1).bowing ≤ 3 := by
  have h1 := clampQ_mem (randJitter g.strokeSize v.size (rng k)) 1 6 (by norm_num)
  have h2 := clampQ_mem (randJitter g.thinning v.thinning (rng (k + 1)))
    (-(1/10)) (3/5) (by norm_num)
  have h3 := clampQ_mem (randJitter g.roughness v.roughness (rng (k + 2)))
    (1/2) 4 (by norm_num)
  have h4 := clampQ_mem (randJitter g.bowing v.bowing (rng (k + 3)))
    (3/10) 3 (by norm_num)
  simp only [getSettings, jsOrDraw, jsOrVal, Category.empty, Option.getD]
  refine ⟨trivial, h1.1, h1.2, trivial, h2.1, h2.2, trivial, h3.1, h3.2, trivial, h4.1, h4.2⟩

/-- C2 (counterexample): a category override far outside the documented
range reaches the returned settings object unclamped, so not every output
field lies inside its range. -/
theorem c2_counterexample :
    ((getSettings rngHalf 0 (some bigCat) defaultGlobal defaultVariance).1).size = 100 ∧
    ¬ ((getSettings rngHalf 0 (some bigCat) defaultGlobal defaultVariance).1).size ≤ 6 := by
  constructor
  · rfl
  · intro h
    rw [show ((getSettings rngHalf 0 (some bigCat) defaultGlobal
        defaultVariance).1).size = 100 from rfl] at h
    norm_num at h

/-- C10: an override field whose value is 0 is falsy in JS, so both
getSettings and the drawRoughShape settings merge fall back to the global or
randomized default instead of using the zero. -/
theorem c10_zero_overrides (rng : ℕ → ℚ) (k : ℕ) (g : GlobalSettings)
    (v : VarSettings) :
    getSettings rng k (some zeroCat) g v = getSettings rng k none g v ∧
    mkStrokeOptions zeroOverrides g = mkStrokeOptions noOverrides g ∧
    (mkStrokeOptions zeroOverrides g).size = g.strokeSize ∧
    (mkStrokeOptions zeroOverrides g).thinning = g.thinning ∧
    (mkStrokeOptions zeroOverrides g).smoothing = g.smoothing := by
  refine ⟨?_, ?_, ?_, ?_, ?_⟩ <;>
    simp [getSettings, jsOrDraw, jsOrVal, zeroCat, zeroOverrides, noOverrides,
      mkStrokeOptions, Category.empty]

/-- C6 (amended): for a straight segment the sampler emits
max(minSteps, ceil(length / stepDivisor)) + 1 points, one more than the
step count, because the loop runs from 0 to steps inclusive. -/
theorem c6_amended (M : JsMath) (rng : ℕ → ℚ) (k : ℕ) (L : LineConfig)
    (p0 p1 : ℚ × ℚ) :
    (interpolateLine M rng k L p0 p1).length =
      max L.minSteps
        (Int.toNat ⌈M.hypot (p1.1 - p0.1) (p1.2 - p0.2) / L.stepDivisor⌉) + 1 := by
  simp [interpolateLine, lineSteps]

/-- C6 (counterexample): for the axis aligned segment from the origin to
(100, 0) the claimed count is max(15, ceil(100 / 2.5)) = 40, but the sampler
emits 41 points. -/
theorem c6_counterexample :
    (interpolateLine M0 rngHalf 0 defaultLine (0, 0) (100, 0)).length = 41 ∧
    max defaultLine.minSteps
      (Int.toNat ⌈M0.hypot (100 - 0) (0 - 0) / defaultLine.stepDivisor⌉) = 40 ∧
    (41 : ℕ) ≠ 40 := by
  have hq : M0.hypot (100 - 0) (0 - 0) / defaultLine.stepDivisor = 40 := by
    norm_num [M0, defaultLine]
  have hc : (⌈M0.hypot (100 - 0) (0 - 0) / defaultLine.stepDivisor⌉ : ℤ) = 40 := by
    rw [hq]
    norm_num
  refine ⟨?_, ?_, by norm_num⟩
  · rw [interpolateLine_length]
    unfold lineSteps
    rw [hc]
    decide
  · rw [hc]
    decide

/-- C7: sample count is at least minSteps, at least 2 for positive length,
and non-decreasing in the segment length. -/
theorem c7_sample_density (M : JsMath) (rng : ℕ → ℚ) (k : ℕ) (L : LineConfig)
    (hsd : 0 < L.stepDivisor) (p0 p1 q0 q1 : ℚ × ℚ) :
    L.minSteps ≤ (interpolateLine M rng k L p0 p1).length ∧
    (0 < M.hypot (p1.1 - p0.1) (p1.2 - p0.2) →
      2 ≤ (interpolateLine M rng k L p0 p1).length) ∧
    (M.hypot (p1.1 - p0.1) (p1.2 - p0.2) ≤ M.hypot (q1.1 - q0.1) (q1.2 - q0.2) →
      (interpolateLine M rng k L p0 p1).length ≤
        (interpolateLine M rng k L q0 q1).length) := by
  simp only [interpolateLine_length, lineSteps]
  refine ⟨by omega, ?_, ?_⟩
  · intro hd
    have hpos : (0 : ℚ) < M.hypot (p1.1 - p0.1) (p1.2 - p0.2) / L.stepDivisor :=
      div_pos hd hsd
    have hceil : (0 : ℤ) < ⌈M.hypot (p1.1 - p0.1) (p1.2 - p0.2) / L.stepDivisor⌉ :=
      Int.ceil_pos.mpr hpos
    omega
  · intro hle
    have hdiv : M.hypot (p1.1 - p0.1) (p1.2 - p0.2) / L.stepDivisor ≤
        M.hypot (q1.1 - q0.1) (q1.2 - q0.2) / L.stepDivisor := by gcongr
    have hceil := Int.ceil_le_ceil hdiv
    omega

/-- C7 (witness): the density facts at two concrete horizontal segments of
lengths 1 and 2. -/
theorem c7_sample_density_witness :
    0 < defaultLine.stepDivisor ∧
    defaultLine.minSteps ≤ (interpolateLine M0 rngHalf 0 defaultLine (0, 0) (1, 0)).length ∧
    2 ≤ (interpolateLine M0 rngHalf 0 defaultLine (0, 0) (1, 0)).length ∧
    (interpolateLine M0 rngHalf 0 defaultLine (0, 0) (1, 0)).length ≤
      (interpolateLine M0 rngHalf 0 defaultLine (0, 0) (2, 0)).length := by
  have hsd : 0 < defaultLine.stepDivisor := by norm_num [defaultLine]
  have h := c7_sample_density M0 rngHalf 0 defaultLine hsd (0, 0) (1, 0) (0, 0) (2, 0)
  exact ⟨hsd, h.1, h.2.1 (by norm_num [M0]), h.2.2 (by norm_num [M0])⟩

/-- C4 (amended): a zero length primitive is not rejected; the sampler still
emits minSteps + 1 samples, every one positioned exactly at the shared
endpoint, and the guarded length prevents any division by zero. -/
theorem c4_amended (M : JsMath) (rng : ℕ → ℚ) (k : ℕ) (L : LineConfig)
    (p : ℚ × ℚ) (h0 : M.hypot 0 0 = 0) :
    (interpolateLine M rng k L p p).length = L.minSteps + 1 ∧
    ∀ q ∈ interpolateLine M rng k L p p, q.x = p.1 ∧ q.y = p.2 := by
  have hd : M.hypot (p.1 - p.1) (p.2 - p.2) = 0 := by
    simpa using h0
  constructor
  · rw [interpolateLine_length, hd]
    simp [lineSteps]
  · intro q hq
    simp only [interpolateLine, List.mem_map, List.mem_range] at hq
    obtain ⟨i, hi, rfl⟩ := hq
    simp [hd]

/-- C4 (witness): the amended facts at the degenerate segment at (5, 5). -/
theorem c4_amended_witness :
    M0.hypot 0 0 = 0 ∧
    (interpolateLine M0 rngHalf 0 defaultLine (5, 5) (5, 5)).length =
      defaultLine.minSteps + 1 ∧
    ∀ q ∈ interpolateLine M0 rngHalf 0 defaultLine (5, 5) (5, 5),
      q.x = 5 ∧ q.y = 5 := by
  have h0 : M0.hypot 0 0 = 0 := by norm_num [M0]
  have h := c4_amended M0 rngHalf 0 defaultLine (5, 5) h0
  exact ⟨h0, h.1, h.2⟩

/-- C4 (counterexample): the degenerate segment at (5, 5) yields 16 sample
points, not an empty path. -/
theorem c4_counterexample :
    interpolateLine M0 rngHalf 0 defaultLine (5, 5) (5, 5) ≠ [] ∧
    (interpolateLine M0 rngHalf 0 defaultLine (5, 5) (5, 5)).length = 16 := by
  have hlen : (interpolateLine M0 rngHalf 0 defaultLine (5, 5) (5, 5)).length = 16 := by
    rw [interpolateLine_length]
    norm_num [M0, lineSteps, defaultLine]
  refine ⟨fun h => ?_, hlen⟩
  rw [h] at hlen
  simp at hlen

/-- C1 (counterexample): two valid ambient Math.random streams produce
different point sequences for the same primitive and the same configuration,
even though the sampler receives no seed at all. -/
theorem c1_counterexample :
    RngValid rngZero ∧ RngValid rngHalf ∧
    interpolateLine M0 rngZero 0 defaultLine (0, 0) (100, 0) ≠
      interpolateLine M0 rngHalf 0 defaultLine (0, 0) (100, 0) := by
  refine ⟨rngZero_valid, rngHalf_valid, fun hEq => ?_⟩
  have h2 := congrArg (fun l => (l.getD 0 ⟨0, 0, 0⟩).pressure) hEq
  simp only [interpolateLine, List.range_succ_eq_map, List.map_cons,
    List.getD_cons_zero] at h2
  norm_num [M0, rngZero, rngHalf] at h2

/-- C1 (amended): with the seed pinned, the sketch stage is reproducible, and
the whole pipeline output is a deterministic function of the primitive, the
configuration, the seed and the ambient random stream; two runs agree exactly
when they see the same ambient draws. -/
theorem c1_amended (M : JsMath) (rng rng2 : ℕ → ℚ) (k : ℕ) (L : LineConfig)
    (seed : ℤ) (roughness : ℚ) (s : OverrideSettings) (g : GlobalSettings)
    (p0 p1 : ℚ × ℚ) (h : ∀ i, rng i = rng2 i) :
    pipelineLine M rng k L seed roughness s g p0 p1 =
      pipelineLine M rng2 k L seed roughness s g p0 p1 := by
  have he : rng = rng2 := funext h
  rw [he]

/-- C1 (witness): the amended determinism at a concrete run. -/
theorem c1_amended_witness :
    pipelineLine M0 rngHalf 0 defaultLine 42 2 noOverrides defaultGlobal (0, 0) (100, 0) =
      pipelineLine M0 rngHalf 0 defaultLine 42 2 noOverrides defaultGlobal (0, 0) (100, 0) :=
  c1_amended M0 rngHalf rngHalf 0 defaultLine 42 2 noOverrides defaultGlobal
    (0, 0) (100, 0) (fun _ => rfl)

theorem interpolateLine_pressure_mem (M : JsMath) (rng : ℕ → ℚ) (k : ℕ)
    (L : LineConfig) (p0 p1 : ℚ × ℚ) (hr : RngValid rng) (hs : M.SinUnitRange) :
    ∀ q ∈ interpolateLine M rng k L p0 p1, 0 ≤ q.pressure ∧ q.pressure ≤ 1 := by
  intro q hq
  simp only [interpolateLine, List.mem_map, List.mem_range] at hq
  obtain ⟨i, hi, rfl⟩ := hq
  have hti := div_nat_unit i
    (lineSteps L (M.hypot (p1.1 - p0.1) (p1.2 - p0.2))) (by omega)
  have hsin := hs _ hti.1 hti.2
  have hrng := hr (k + 2 * i + 1)
  constructor <;> simp only [] <;> linarith [hsin.1, hsin.2, hrng.1, hrng.2]

theorem interpolateBezier_pressure_mem (M : JsMath) (b0 b1 b2 b3 : ℚ × ℚ)
    (hs : M.SinUnitRange) :
    ∀ q ∈ interpolateBezier M b0 b1 b2 b3, 0 ≤ q.pressure ∧ q.pressure ≤ 1 := by
  intro q hq
  simp only [interpolateBezier, List.mem_map, List.mem_range] at hq
  obtain ⟨i, hi, rfl⟩ := hq
  have hti : 0 ≤ ((i : ℚ) / 18) ∧ ((i : ℚ) / 18) ≤ 1 := by
    have h18 := div_nat_unit i 18 (by omega)
    have : ((18 : ℕ) : ℚ) = 18 := by norm_num
    rw [this] at h18
    exact h18
  have hsin := hs _ hti.1 hti.2
  constructor <;> simp only [] <;> linarith [hsin.1, hsin.2]

/-- C9: every sample emitted by the straight segment sampler and by the cubic
Bezier sampler carries a pressure inside the unit interval. -/
theorem c9_pressure_unit (M : JsMath) (rng : ℕ → ℚ) (k : ℕ) (L : LineConfig)
    (p0 p1 b0 b1 b2 b3 : ℚ × ℚ) (hr : RngValid rng) (hs : M.SinUnitRange) :
    (∀ q ∈ interpolateLine M rng k L p0 p1, 0 ≤ q.pressure ∧ q.pressure ≤ 1) ∧
    (∀ q ∈ interpolateBezier M b0 b1 b2 b3, 0 ≤ q.pressure ∧ q.pressure ≤ 1) :=
  ⟨interpolateLine_pressure_mem M rng k L p0 p1 hr hs,
   interpolateBezier_pressure_mem M b0 b1 b2 b3 hs⟩

/-- C9 (witness): the pressure bounds at a concrete segment and curve. -/
theorem c9_pressure_unit_witness :
    (∀ q ∈ interpolateLine M0 rngHalf 0 defaultLine (0, 0) (100, 0),
        0 ≤ q.pressure ∧ q.pressure ≤ 1) ∧
    (∀ q ∈ interpolateBezier M0 (0, 0) (1, 1) (2, 1) (3, 0),
        0 ≤ q.pressure ∧ q.pressure ≤ 1) :=
  c9_pressure_unit M0 rngHalf 0 defaultLine (0, 0) (100, 0)
    (0, 0) (1, 1) (2, 1) (3, 0) rngHalf_valid M0_sinUnitRange

/-- C8: the sample at index i of the straight segment sampler is the linear
interpolation of the endpoints plus the sine wave term and the uniform wobble
term, both applied along the direction (-dy, dx) / len, which is orthogonal
to the segment direction (dx, dy): the perturbation acts along the path
normal, not the tangent. -/
theorem c8_wave_normal (M : JsMath) (rng : ℕ → ℚ) (k : ℕ) (L : LineConfig)
    (p0 p1 : ℚ × ℚ) (i : ℕ)
    (hi : i < (interpolateLine M rng k L p0 p1).length) :
    ((interpolateLine M rng k L p0 p1).getD i ⟨0, 0, 0⟩).x =
      p0.1 + (p1.1 - p0.1) *
          ((i : ℚ) / (lineSteps L (M.hypot (p1.1 - p0.1) (p1.2 - p0.2)) : ℚ)) +
        (-(p1.2 - p0.2) / guardedLen M (p1.1 - p0.1) (p1.2 - p0.2)) *
          (lineWave M L
              ((i : ℚ) / (lineSteps L (M.hypot (p1.1 - p0.1) (p1.2 - p0.2)) : ℚ))
              (M.hypot (p1.1 - p0.1) (p1.2 - p0.2)) +
            lineWobble L (rng (k + 2 * i))
              (M.hypot (p1.1 - p0.1) (p1.2 - p0.2))) ∧
    ((interpolateLine M rng k L p0 p1).getD i ⟨0, 0, 0⟩).y =
      p0.2 + (p1.2 - p0.2) *
          ((i : ℚ) / (lineSteps L (M.hypot (p1.1 - p0.1) (p1.2 - p0.2)) : ℚ)) +
        ((p1.1 - p0.1) / guardedLen M (p1.1 - p0.1) (p1.2 - p0.2)) *
          (lineWave M L
              ((i : ℚ) / (lineSteps L (M.hypot (p1.1 - p0.1) (p1.2 - p0.2)) : ℚ))
              (M.hypot (p1.1 - p0.1) (p1.2 - p0.2)) +
            lineWobble L (rng (k + 2 * i))
              (M.hypot (p1.1 - p0.1) (p1.2 - p0.2))) ∧
    (-(p1.2 - p0.2) / guardedLen M (p1.1 - p0.1) (p1.2 - p0.2)) * (p1.1 - p0.1) +
      ((p1.1 - p0.1) / guardedLen M (p1.1 - p0.1) (p1.2 - p0.2)) * (p1.2 - p0.2)
      = 0 := by
  rw [interpolateLine_length] at hi
  refine ⟨?_, ?_, ?_⟩
  · simp only [interpolateLine, lineWave, lineWobble, guardedLen]
    rw [List.getD_eq_getElem _ _ (by simpa [interpolateLine] using hi)]
    simp [interpolateLine]
  · simp only [interpolateLine, lineWave, lineWobble, guardedLen]
    rw [List.getD_eq_getElem _ _ (by simpa [interpolateLine] using hi)]
    simp [interpolateLine]
  · unfold guardedLen
    by_cases h : M.hypot (p1.1 - p0.1) (p1.2 - p0.2) = 0
    · simp only [h, if_pos rfl]
      ring
    · rw [if_neg h]
      field_simp
      ring

/-- C8 (witness): the decomposition at index 1 of a concrete segment. -/
theorem c8_wave_normal_witness :
    ((interpolateLine M0 rngHalf 0 defaultLine (0, 0) (100, 0)).getD 1 ⟨0, 0, 0⟩).x =
      (0 : ℚ) + (100 - 0) *
          ((1 : ℚ) / (lineSteps defaultLine (M0.hypot (100 - 0) (0 - 0)) : ℚ)) +
        (-(0 - 0) / guardedLen M0 (100 - 0) (0 - 0)) *
          (lineWave M0 defaultLine
              ((1 : ℚ) / (lineSteps defaultLine (M0.hypot (100 - 0) (0 - 0)) : ℚ))
              (M0.hypot (100 - 0) (0 - 0)) +
            lineWobble defaultLine (rngHalf (0 + 2 * 1))
              (M0.hypot (100 - 0) (0 - 0))) ∧
    ((interpolateLine M0 rngHalf 0 defaultLine (0, 0) (100, 0)).getD 1 ⟨0, 0, 0⟩).y =
      (0 : ℚ) + (0 - 0) *
          ((1 : ℚ) / (lineSteps defaultLine (M0.hypot (100 - 0) (0 - 0)) : ℚ)) +
        ((100 - 0) / guardedLen M0 (100 - 0) (0 - 0)) *
          (lineWave M0 defaultLine
              ((1 : ℚ) / (lineSteps defaultLine (M0.hypot (100 - 0) (0 - 0)) : ℚ))
              (M0.hypot (100 - 0) (0 - 0)) +
            lineWobble defaultLine (rngHalf (0 + 2 * 1))
              (M0.hypot (100 - 0) (0 - 0))) ∧
    (-(0 - 0) / guardedLen M0 (100 - 0) (0 - 0)) * (100 - 0) +
      ((100 - 0) / guardedLen M0 (100 - 0) (0 - 0)) * (0 - 0) = 0 := by
  have h := c8_wave_normal M0 rngHalf 0 defaultLine (0, 0) (100, 0) 1
    (by rw [interpolateLine_length]; unfold lineSteps; simp only [defaultLine]; omega)
  exact h

theorem getStroke_length_of_two (M : JsMath) (o : StrokeOptions) (pts : List Pt)
    (h : 2 ≤ pts.length) :
    (getStroke M o pts).length = 2 * pts.length := by
  match pts, h with
  | a :: b :: t, _ =>
    simp only [getStroke, List.length_append, List.length_map, List.length_reverse,
      List.length_range, List.length_cons]
    omega

/-- C3 (counterexample): a single point input produces no shape at all; the
guard in drawPoints returns before the outliner is ever invoked. -/
theorem c3_counterexample :
    drawPoints M0 [⟨0, 0, 1/2⟩] noOverrides defaultGlobal = [] := by
  decide

/-- C3 (amended): every input of at least two points produces a nonempty
polygon of at least four vertices, but a single point input is dropped by
drawPoints and yields no shape. -/
theorem c3_amended (M : JsMath) (pts : List Pt) (s : OverrideSettings)
    (g : GlobalSettings) (h : 2 ≤ pts.length) :
    drawPoints M pts s g ≠ [] ∧
    ∀ poly ∈ drawPoints M pts s g, 4 ≤ poly.length := by
  have hlen := getStroke_length_of_two M (mkStrokeOptions s g) pts h
  simp only [drawPoints]
  rw [if_neg (by omega : ¬ pts.length < 2)]
  rw [if_pos (by omega : 0 < (getStroke M (mkStrokeOptions s g) pts).length)]
  refine ⟨by simp, ?_⟩
  intro poly hp
  rw [List.mem_singleton] at hp
  subst hp
  omega

/-- C3 (witness): the amended facts at a concrete two point input. -/
theorem c3_amended_witness :
    (2 : ℕ) ≤ ([⟨0, 0, 1/2⟩, ⟨1, 0, 1/2⟩] : List Pt).length ∧
    drawPoints M0 [⟨0, 0, 1/2⟩, ⟨1, 0, 1/2⟩] noOverrides defaultGlobal ≠ [] ∧
    ∀ poly ∈ drawPoints M0 [⟨0, 0, 1/2⟩, ⟨1, 0, 1/2⟩] noOverrides defaultGlobal,
      4 ≤ poly.length := by
  have h := c3_amended M0 [⟨0, 0, 1/2⟩, ⟨1, 0, 1/2⟩] noOverrides defaultGlobal
    (by decide)
  exact ⟨by decide, h.1, h.2⟩

theorem roughRand_mem (seed : ℤ) (i : ℕ) :
    0 ≤ roughRand seed i ∧ roughRand seed i < 1 := by
  unfold roughRand
  constructor
  · positivity
  · rw [div_lt_one (by norm_num)]
    have h : ((seed.natAbs + 1) * (i + 1) * 48271) % 65536 < 65536 :=
      Nat.mod_lt _ (by norm_num)
    exact_mod_cast h

theorem perp_comp_le_one (M : JsMath) (hh : M.HypotValid) (dx dy : ℚ) :
    |(-dy) / guardedLen M dx dy| ≤ 1 ∧ |dx / guardedLen M dx dy| ≤ 1 := by
  obtain ⟨h0, hx, hy, _⟩ := hh
  unfold guardedLen
  by_cases h : M.hypot dx dy = 0
  · rw [if_pos h]
    have hdx : dx = 0 := abs_nonpos_iff.mp (h ▸ hx dx dy)
    have hdy : dy = 0 := abs_nonpos_iff.mp (h ▸ hy dx dy)
    simp [hdx, hdy]
  · rw [if_neg h]
    have hpos : 0 < M.hypot dx dy := lt_of_le_of_ne (h0 dx dy) (Ne.symm h)
    constructor
    · rw [abs_div, abs_neg, abs_of_pos hpos, div_le_one hpos]
      exact hy dx dy
    · rw [abs_div, abs_of_pos hpos, div_le_one hpos]
      exact hx dx dy

theorem unitNormal_le_one (M : JsMath) (hh : M.HypotValid) (dx dy : ℚ) :
    |(unitNormal M dx dy).1| ≤ 1 ∧ |(unitNormal M dx dy).2| ≤ 1 := by
  have h := perp_comp_le_one M hh dx dy
  simpa [unitNormal, guardedLen] using h

theorem lerp_abs_le (a b c r t : ℚ) (ha : |a - c| ≤ r) (hb : |b - c| ≤ r)
    (ht0 : 0 ≤ t) (ht1 : t ≤ 1) : |a + (b - a) * t - c| ≤ r := by
  have hsplit : a + (b - a) * t - c = (1 - t) * (a - c) + t * (b - c) := by ring
  rw [hsplit]
  calc |(1 - t) * (a - c) + t * (b - c)|
      ≤ |(1 - t) * (a - c)| + |t * (b - c)| := abs_add _ _
    _ = (1 - t) * |a - c| + t * |b - c| := by
        rw [abs_mul, abs_mul, abs_of_nonneg (by linarith), abs_of_nonneg ht0]
    _ ≤ (1 - t) * r + t * r :=
        add_le_add (mul_le_mul_of_nonneg_left ha (by linarith))
          (mul_le_mul_of_nonneg_left hb ht0)
    _ = r := by ring

theorem halfWidth_bounds (o : StrokeOptions) (p : ℚ) (hp0 : 0 ≤ p) (hp1 : p ≤ 1) :
    0 < halfWidth o p ∧ halfWidth o p ≤ wBound o := by
  constructor
  · exact lt_of_lt_of_le (by norm_num) (le_max_left _ _)
  · apply max_le_max (le_refl (1/100 : ℚ))
    have hu : |(p - 1/2) * 2| ≤ 1 := by
      rw [abs_mul]
      have : |p - 1/2| ≤ 1/2 := abs_le.mpr ⟨by linarith, by linarith⟩
      rw [show |(2:ℚ)| = 2 by norm_num]
      linarith
    calc o.size / 2 * (1 + o.thinning * (p - 1/2) * 2)
        ≤ |o.size / 2 * (1 + o.thinning * (p - 1/2) * 2)| := le_abs_self _
      _ = |o.size| / 2 * |1 + o.thinning * (p - 1/2) * 2| := by
          rw [abs_mul, abs_div]
          norm_num
      _ ≤ |o.size| / 2 * (1 + |o.thinning|) := by
          apply mul_le_mul_of_nonneg_left ?_ (by positivity)
          calc |1 + o.thinning * (p - 1/2) * 2|
              ≤ |(1 : ℚ)| + |o.thinning * ((p - 1/2) * 2)| := by
                rw [show o.thinning * (p - 1/2) * 2 = o.thinning * ((p - 1/2) * 2) by ring]
                exact abs_add _ _
            _ = 1 + |o.thinning| * |(p - 1/2) * 2| := by rw [abs_one, abs_mul]
            _ ≤ 1 + |o.thinning| := by
                have := mul_le_mul_of_nonneg_left hu (abs_nonneg o.thinning)
                linarith

theorem interpolateLine_mem_box (M : JsMath) (rng : ℕ → ℚ) (k : ℕ)
    (L : LineConfig) (a b c : ℚ × ℚ) (r : ℚ)
    (hh : M.HypotValid) (hsb : M.SinBounded) (hr : RngValid rng)
    (hwa : 0 ≤ L.waveAmount) (hwo : 0 ≤ L.wobbleAmount)
    (ha1 : |a.1 - c.1| ≤ r) (ha2 : |a.2 - c.2| ≤ r)
    (hb1 : |b.1 - c.1| ≤ r) (hb2 : |b.2 - c.2| ≤ r) :
    ∀ q ∈ interpolateLine M rng k L a b,
      |q.x - c.1| ≤ r * (1 + 4 * (L.waveAmount + L.wobbleAmount / 2)) ∧
      |q.y - c.2| ≤ r * (1 + 4 * (L.waveAmount + L.wobbleAmount / 2)) := by
  intro q hq
  have hr0 : 0 ≤ r := le_trans (abs_nonneg _) ha1
  have hdx : |b.1 - a.1| ≤ 2 * r := by
    have h1 := abs_le.mp ha1
    have h2 := abs_le.mp hb1
    exact abs_le.mpr ⟨by linarith, by linarith⟩
  have hdy : |b.2 - a.2| ≤ 2 * r := by
    have h1 := abs_le.mp ha2
    have h2 := abs_le.mp hb2
    exact abs_le.mpr ⟨by linarith, by linarith⟩
  have hdist_le : M.hypot (b.1 - a.1) (b.2 - a.2) ≤ 4 * r := by
    have ht := hh.2.2.2 (b.1 - a.1) (b.2 - a.2)
    linarith
  have hdist0 : 0 ≤ M.hypot (b.1 - a.1) (b.2 - a.2) := hh.1 _ _
  simp only [interpolateLine, List.mem_map, List.mem_range] at hq
  obtain ⟨i, hi, rfl⟩ := hq
  set D := M.hypot (b.1 - a.1) (b.2 - a.2) with hD
  set t : ℚ := (i : ℚ) / (lineSteps L D : ℚ) with ht
  have htu := div_nat_unit i (lineSteps L D) (by omega)
  set w := M.sin (t * M.pi * L.waveFrequency) * D * L.waveAmount +
      (rng (k + 2 * i) - 1/2) * D * L.wobbleAmount with hw
  have hinner : |w| ≤ 4 * r * (L.waveAmount + L.wobbleAmount / 2) := by
    have hs := hsb (t * M.pi * L.waveFrequency)
    have hrW := hr (k + 2 * i)
    have hr12 : |rng (k + 2 * i) - 1/2| ≤ 1/2 :=
      abs_le.mpr ⟨by linarith [hrW.1], by linarith [hrW.2]⟩
    have step1 : |w| ≤ D * L.waveAmount + D * (L.wobbleAmount / 2) := by
      calc |w| ≤ |M.sin (t * M.pi * L.waveFrequency) * D * L.waveAmount| +
            |(rng (k + 2 * i) - 1/2) * D * L.wobbleAmount| := abs_add _ _
        _ = |M.sin (t * M.pi * L.waveFrequency)| * D * L.waveAmount +
            |rng (k + 2 * i) - 1/2| * D * L.wobbleAmount := by
            rw [abs_mul, abs_mul, abs_mul, abs_mul,
              abs_of_nonneg hdist0, abs_of_nonneg hwa, abs_of_nonneg hwo]
        _ ≤ 1 * D * L.waveAmount + (1/2) * D * L.wobbleAmount := by
            refine add_le_add ?_ ?_
            · exact mul_le_mul_of_nonneg_right
                (mul_le_mul_of_nonneg_right hs hdist0) hwa
            · exact mul_le_mul_of_nonneg_right
                (mul_le_mul_of_nonneg_right hr12 hdist0) hwo
        _ = D * L.waveAmount + D * (L.wobbleAmount / 2) := by ring
    have step2 : D * L.waveAmount + D * (L.wobbleAmount / 2) ≤
        4 * r * (L.waveAmount + L.wobbleAmount / 2) := by nlinarith
    linarith
  have hperp := perp_comp_le_one M hh (b.1 - a.1) (b.2 - a.2)
  unfold guardedLen at hperp
  rw [← hD] at hperp
  have hlerp1 := lerp_abs_le a.1 b.1 c.1 r t ha1 hb1 htu.1 htu.2
  have hlerp2 := lerp_abs_le a.2 b.2 c.2 r t ha2 hb2 htu.1 htu.2
  constructor
  · simp only []
    have hpw : |(-(b.2 - a.2) / if D = 0 then 1 else D) * w| ≤
        4 * r * (L.waveAmount + L.wobbleAmount / 2) := by
      rw [abs_mul]
      calc |(-(b.2 - a.2) / if D = 0 then 1 else D)| * |w|
          ≤ 1 * (4 * r * (L.waveAmount + L.wobbleAmount / 2)) :=
            mul_le_mul hperp.1 hinner (abs_nonneg _) zero_le_one
        _ = 4 * r * (L.waveAmount + L.wobbleAmount / 2) := one_mul _
    calc |a.1 + (b.1 - a.1) * t + (-(b.2 - a.2) / if D = 0 then 1 else D) * w - c.1|
        = |(a.1 + (b.1 - a.1) * t - c.1) +
            (-(b.2 - a.2) / if D = 0 then 1 else D) * w| := by ring_nf
      _ ≤ |a.1 + (b.1 - a.1) * t - c.1| +
            |(-(b.2 - a.2) / if D = 0 then 1 else D) * w| := abs_add _ _
      _ ≤ r + 4 * r * (L.waveAmount + L.wobbleAmount / 2) := add_le_add hlerp1 hpw
      _ = r * (1 + 4 * (L.waveAmount + L.wobbleAmount / 2)) := by ring
  · simp only []
    have hpw : |((b.1 - a.1) / if D = 0 then 1 else D) * w| ≤
        4 * r * (L.waveAmount + L.wobbleAmount / 2) := by
      rw [abs_mul]
      calc |((b.1 - a.1) / if D = 0 then 1 else D)| * |w|
          ≤ 1 * (4 * r * (L.waveAmount + L.wobbleAmount / 2)) :=
            mul_le_mul hperp.2 hinner (abs_nonneg _) zero_le_one
        _ = 4 * r * (L.waveAmount + L.wobbleAmount / 2) := one_mul _
    calc |a.2 + (b.2 - a.2) * t + ((b.1 - a.1) / if D = 0 then 1 else D) * w - c.2|
        = |(a.2 + (b.2 - a.2) * t - c.2) +
            ((b.1 - a.1) / if D = 0 then 1 else D) * w| := by ring_nf
      _ ≤ |a.2 + (b.2 - a.2) * t - c.2| +
            |((b.1 - a.1) / if D = 0 then 1 else D) * w| := abs_add _ _
      _ ≤ r + 4 * r * (L.waveAmount + L.wobbleAmount / 2) := add_le_add hlerp2 hpw
      _ = r * (1 + 4 * (L.waveAmount + L.wobbleAmount / 2)) := by ring

theorem getStroke_mem_box (M : JsMath) (o : StrokeOptions) (pts : List Pt)
    (c : ℚ × ℚ) (r : ℚ) (hh : M.HypotValid)
    (hpts : ∀ p ∈ pts, (|p.x - c.1| ≤ r ∧ |p.y - c.2| ≤ r) ∧
        (0 ≤ p.pressure ∧ p.pressure ≤ 1)) :
    ∀ v ∈ getStroke M o pts,
      |v.1 - c.1| ≤ r + wBound o ∧ |v.2 - c.2| ≤ r + wBound o := by
  have hwB0 : (0 : ℚ) ≤ wBound o := le_trans (by norm_num) (le_max_left _ _)
  have hsize : |o.size / 2| ≤ wBound o := by
    rw [abs_div, show |(2 : ℚ)| = 2 by norm_num]
    refine le_trans ?_ (le_max_right _ _)
    nlinarith [abs_nonneg o.size, abs_nonneg o.thinning]
  have key : ∀ u z d0 : ℚ, |u - z| ≤ r → |d0| ≤ wBound o →
      |u + d0 - z| ≤ r + wBound o := by
    intro u z d0 hu hd
    rw [show u + d0 - z = (u - z) + d0 by ring]
    exact le_trans (abs_add _ _) (add_le_add hu hd)
  have keyn : ∀ u z d0 : ℚ, |u - z| ≤ r → |d0| ≤ wBound o →
      |u - d0 - z| ≤ r + wBound o := by
    intro u z d0 hu hd
    rw [sub_eq_add_neg u d0]
    exact key u z (-d0) hu (by rwa [abs_neg])
  have hwn : ∀ (pr A B : ℚ), 0 ≤ pr → pr ≤ 1 →
      |halfWidth o pr * (unitNormal M A B).1| ≤ wBound o ∧
      |halfWidth o pr * (unitNormal M A B).2| ≤ wBound o := by
    intro pr A B h0 h1
    have hw := halfWidth_bounds o pr h0 h1
    have hn := unitNormal_le_one M hh A B
    constructor
    · rw [abs_mul, abs_of_pos hw.1]
      calc halfWidth o pr * |(unitNormal M A B).1| ≤ wBound o * 1 :=
            mul_le_mul hw.2 hn.1 (abs_nonneg _) hwB0
        _ = wBound o := mul_one _
    · rw [abs_mul, abs_of_pos hw.1]
      calc halfWidth o pr * |(unitNormal M A B).2| ≤ wBound o * 1 :=
            mul_le_mul hw.2 hn.2 (abs_nonneg _) hwB0
        _ = wBound o := mul_one _
  intro v hv
  match pts, hpts, hv with
  | [], _, hv => simp [getStroke] at hv
  | [p], hpts, hv =>
      have hp := hpts p (by simp)
      simp only [getStroke, List.mem_cons, List.not_mem_nil, or_false] at hv
      rcases hv with rfl | rfl | rfl | rfl
      · exact ⟨keyn p.x c.1 (o.size / 2) hp.1.1 hsize,
          le_trans hp.1.2 (by linarith)⟩
      · exact ⟨le_trans hp.1.1 (by linarith),
          keyn p.y c.2 (o.size / 2) hp.1.2 hsize⟩
      · exact ⟨key p.x c.1 (o.size / 2) hp.1.1 hsize,
          le_trans hp.1.2 (by linarith)⟩
      · exact ⟨le_trans hp.1.1 (by linarith),
          key p.y c.2 (o.size / 2) hp.1.2 hsize⟩
  | p1 :: p2 :: tl, hpts, hv =>
      simp only [getStroke, List.mem_append, List.mem_reverse, List.mem_map,
        List.mem_range] at hv
      have hget : ∀ i : ℕ, i < (p1 :: p2 :: tl).length →
          ((p1 :: p2 :: tl).getD i ⟨0, 0, 1/2⟩ ∈ (p1 :: p2 :: tl)) := by
        intro i hi
        rw [List.getD_eq_getElem _ _ hi]
        exact List.getElem_mem hi
      rcases hv with ⟨pair, ⟨i, hi, hpair⟩, hfst⟩ | ⟨pair, ⟨i, hi, hpair⟩, hsnd⟩
      · subst hpair
        have hp := hpts _ (hget i (by simpa using hi))
        have hd := hwn ((p1 :: p2 :: tl).getD i ⟨0, 0, 1/2⟩).pressure
          (((p1 :: p2 :: tl).getD ((i + 1) ⊓ ((p1 :: p2 :: tl).length - 1))
              ⟨0, 0, 1/2⟩).x - ((p1 :: p2 :: tl).getD (i - 1) ⟨0, 0, 1/2⟩).x)
          (((p1 :: p2 :: tl).getD ((i + 1) ⊓ ((p1 :: p2 :: tl).length - 1))
              ⟨0, 0, 1/2⟩).y - ((p1 :: p2 :: tl).getD (i - 1) ⟨0, 0, 1/2⟩).y)
          hp.2.1 hp.2.2
        rw [← hfst]
        exact ⟨key _ c.1 _ hp.1.1 hd.1, key _ c.2 _ hp.1.2 hd.2⟩
      · subst hpair
        have hp := hpts _ (hget i (by simpa using hi))
        have hd := hwn ((p1 :: p2 :: tl).getD i ⟨0, 0, 1/2⟩).pressure
          (((p1 :: p2 :: tl).getD ((i + 1) ⊓ ((p1 :: p2 :: tl).length - 1))
              ⟨0, 0, 1/2⟩).x - ((p1 :: p2 :: tl).getD (i - 1) ⟨0, 0, 1/2⟩).x)
          (((p1 :: p2 :: tl).getD ((i + 1) ⊓ ((p1 :: p2 :: tl).length - 1))
              ⟨0, 0, 1/2⟩).y - ((p1 :: p2 :: tl).getD (i - 1) ⟨0, 0, 1/2⟩).y)
          hp.2.1 hp.2.2
        rw [← hsnd]
        exact ⟨keyn _ c.1 _ hp.1.1 hd.1, keyn _ c.2 _ hp.1.2 hd.2⟩

theorem pipelineLine_eq_single (M : JsMath) (rng : ℕ → ℚ) (k : ℕ)
    (L : LineConfig) (seed : ℤ) (roughness : ℚ) (s : OverrideSettings)
    (g : GlobalSettings) (p0 p1 : ℚ × ℚ) :
    pipelineLine M rng k L seed roughness s g p0 p1 =
      [getStroke M (mkStrokeOptions s g)
        (⟨p0.1 + (roughRand seed 0 - 1/2) * 2 * roughness,
          p0.2 + (roughRand seed 1 - 1/2) * 2 * roughness, 1/2⟩ ::
          interpolateLine M rng k L
            (p0.1 + (roughRand seed 0 - 1/2) * 2 * roughness,
             p0.2 + (roughRand seed 1 - 1/2) * 2 * roughness)
            (p1.1 + (roughRand seed 2 - 1/2) * 2 * roughness,
             p1.2 + (roughRand seed 3 - 1/2) * 2 * roughness))] := by
  have hl : 1 < ((⟨p0.1 + (roughRand seed 0 - 1/2) * 2 * roughness,
      p0.2 + (roughRand seed 1 - 1/2) * 2 * roughness, 1/2⟩ :
        Pt) ::
      interpolateLine M rng k L
        (p0.1 + (roughRand seed 0 - 1/2) * 2 * roughness,
         p0.2 + (roughRand seed 1 - 1/2) * 2 * roughness)
        (p1.1 + (roughRand seed 2 - 1/2) * 2 * roughness,
         p1.2 + (roughRand seed 3 - 1/2) * 2 * roughness)).length := by
    rw [List.length_cons, interpolateLine_length]
    omega
  have hs2 : 2 ≤ ((⟨p0.1 + (roughRand seed 0 - 1/2) * 2 * roughness,
      p0.2 + (roughRand seed 1 - 1/2) * 2 * roughness, 1/2⟩ :
        Pt) ::
      interpolateLine M rng k L
        (p0.1 + (roughRand seed 0 - 1/2) * 2 * roughness,
         p0.2 + (roughRand seed 1 - 1/2) * 2 * roughness)
        (p1.1 + (roughRand seed 2 - 1/2) * 2 * roughness,
         p1.2 + (roughRand seed 3 - 1/2) * 2 * roughness)).length := by omega
  have hg := getStroke_length_of_two M (mkStrokeOptions s g) _ hs2
  simp only [pipelineLine, generatorLine, drawRoughShape, opsToPoints,
    List.append_nil]
  rw [if_pos hl, if_pos (by omega)]

/-- C5: the pipeline on the degenerate line from (5, 5) to (5, 5) returns a
single valid polygon with at least four vertices, all of which stay within a
small neighbourhood of the point (5, 5) (hence of near zero extent), and
never an empty or missing result.  The sketch generator and the outliner are
modelled from the spec because the two libraries are loaded remotely. -/
theorem c5_degenerate_line (M : JsMath) (rng : ℕ → ℚ) (k : ℕ) (seed : ℤ)
    (hh : M.HypotValid) (hsb : M.SinBounded) (hsu : M.SinUnitRange)
    (hr : RngValid rng) :
    pipelineLine M rng k defaultLine seed 2 noOverrides defaultGlobal (5, 5) (5, 5) ≠ [] ∧
    ∀ poly ∈ pipelineLine M rng k defaultLine seed 2 noOverrides defaultGlobal (5, 5) (5, 5),
      4 ≤ poly.length ∧ ∀ v ∈ poly, |v.1 - 5| ≤ 5 ∧ |v.2 - 5| ≤ 5 := by
  have habs : ∀ i : ℕ, |(roughRand seed i - 1/2) * 2 * 2| ≤ 2 := by
    intro i
    have h := roughRand_mem seed i
    have h12 : |roughRand seed i - 1/2| ≤ 1/2 :=
      abs_le.mpr ⟨by linarith [h.1], by linarith [h.2]⟩
    calc |(roughRand seed i - 1/2) * 2 * 2|
        = |roughRand seed i - 1/2| * 4 := by
          rw [abs_mul, abs_mul]
          rw [show |(2 : ℚ)| = 2 by norm_num]
          ring
      _ ≤ 2 := by linarith
  rw [pipelineLine_eq_single]
  dsimp only
  set P := ((⟨(5 : ℚ) + (roughRand seed 0 - 1/2) * 2 * 2,
      (5 : ℚ) + (roughRand seed 1 - 1/2) * 2 * 2, 1/2⟩ : Pt) ::
      interpolateLine M rng k defaultLine
        (5 + (roughRand seed 0 - 1/2) * 2 * 2, 5 + (roughRand seed 1 - 1/2) * 2 * 2)
        (5 + (roughRand seed 2 - 1/2) * 2 * 2, 5 + (roughRand seed 3 - 1/2) * 2 * 2))
    with hP
  have hbox : ∀ p ∈ P, (|p.x - (5 : ℚ)| ≤ 11/5 ∧ |p.y - (5 : ℚ)| ≤ 11/5) ∧
      (0 ≤ p.pressure ∧ p.pressure ≤ 1) := by
    intro p hp
    rw [hP, List.mem_cons] at hp
    rcases hp with rfl | hmem
    · refine ⟨⟨?_, ?_⟩, by norm_num⟩
      · show |5 + (roughRand seed 0 - 1/2) * 2 * 2 - 5| ≤ 11/5
        rw [add_sub_cancel_left]
        exact le_trans (habs 0) (by norm_num)
      · show |5 + (roughRand seed 1 - 1/2) * 2 * 2 - 5| ≤ 11/5
        rw [add_sub_cancel_left]
        exact le_trans (habs 1) (by norm_num)
    · have hai : ∀ i : ℕ, |(5 + (roughRand seed i - 1/2) * 2 * 2 : ℚ) - 5| ≤ 2 := by
        intro i
        rw [add_sub_cancel_left]
        exact habs i
      have h1 := interpolateLine_mem_box M rng k defaultLine
        (5 + (roughRand seed 0 - 1/2) * 2 * 2, 5 + (roughRand seed 1 - 1/2) * 2 * 2)
        (5 + (roughRand seed 2 - 1/2) * 2 * 2, 5 + (roughRand seed 3 - 1/2) * 2 * 2)
        (5, 5) 2 hh hsb hr (by norm_num [defaultLine]) (by norm_num [defaultLine])
        (hai 0) (hai 1) (hai 2) (hai 3) p hmem
      have h2 := interpolateLine_pressure_mem M rng k defaultLine
        (5 + (roughRand seed 0 - 1/2) * 2 * 2, 5 + (roughRand seed 1 - 1/2) * 2 * 2)
        (5 + (roughRand seed 2 - 1/2) * 2 * 2, 5 + (roughRand seed 3 - 1/2) * 2 * 2)
        hr hsu p hmem
      refine ⟨⟨?_, ?_⟩, h2⟩
      · calc |p.x - (5 : ℚ)|
            ≤ 2 * (1 + 4 * (defaultLine.waveAmount + defaultLine.wobbleAmount / 2)) :=
              h1.1
          _ = 11/5 := by norm_num [defaultLine]
      · calc |p.y - (5 : ℚ)|
            ≤ 2 * (1 + 4 * (defaultLine.waveAmount + defaultLine.wobbleAmount / 2)) :=
              h1.2
          _ = 11/5 := by norm_num [defaultLine]
  have hlen2 : 2 ≤ P.length := by
    rw [hP, List.length_cons, interpolateLine_length]
    omega
  have hgl := getStroke_length_of_two M (mkStrokeOptions noOverrides defaultGlobal) P hlen2
  have hgb := getStroke_mem_box M (mkStrokeOptions noOverrides defaultGlobal) P
    (5, 5) (11/5) hh hbox
  have hwB : wBound (mkStrokeOptions noOverrides defaultGlobal) = 15/8 := by
    show max (1/100 : ℚ) (|(3 : ℚ)| / 2 * (1 + |(1/4 : ℚ)|)) = 15/8
    rw [show |(3 : ℚ)| = 3 by norm_num, show |(1/4 : ℚ)| = 1/4 by norm_num,
      show (3 : ℚ) / 2 * (1 + 1/4) = 15/8 by norm_num]
    exact max_eq_right (by norm_num)
  refine ⟨by simp, ?_⟩
  intro poly hpoly
  rw [List.mem_singleton] at hpoly
  subst hpoly
  constructor
  · rw [hgl]
    omega
  · intro v hv
    have h := hgb v hv
    rw [hwB] at h
    exact ⟨le_trans h.1 (by norm_num), le_trans h.2 (by norm_num)⟩

/-- C5 (witness): the degenerate line facts at a concrete instantiation of
the Math primitives, stream and seed. -/
theorem c5_degenerate_line_witness :
    pipelineLine M0 rngHalf 0 defaultLine 42 2 noOverrides defaultGlobal (5, 5) (5, 5) ≠ [] ∧
    ∀ poly ∈ pipelineLine M0 rngHalf 0 defaultLine 42 2 noOverrides defaultGlobal (5, 5) (5, 5),
      4 ≤ poly.length ∧ ∀ v ∈ poly, |v.1 - 5| ≤ 5 ∧ |v.2 - 5| ≤ 5 :=
  c5_degenerate_line M0 rngHalf 0 42 M0_hypotValid M0_sinBounded M0_sinUnitRange
    rngHalf_valid


end HwGeo
